import Mathlib

/-!
Shallow embedding of the revision-management core of the
tooling-trusted-release repository, together with theorems checking the
natural-language specification against the code.

Files embedded:
- `atr/routes/draft.py` (delete_file, hashgen, sbomgen, fresh)
- `atr/db/interaction.py` (tasks_ongoing, release_delete, path_info)
- `atr/blueprints/admin/admin.py` (admin_consistency)
- `atr/tasks/checks/targz.py` (root_directory, structure)

Machine integers do not occur; file contents are byte lists, paths are
component lists, database rows are structures.
-/

namespace ATR

/-- A file path relative to some root, as a list of components
(`pathlib.Path` parts). -/
abbrev FsPath := List String

/-- File contents as a list of bytes. -/
abbrev ByteSeq := List Nat

/-- A directory tree containing only files: each entry is a path
(relative to the tree root) together with its byte contents. -/
abbrev FileTree := List (FsPath × ByteSeq)

/-- `aiofiles.os.path.exists` on the interim tree: the path names a file
present in the tree. -/
def treeHas (tree : FileTree) (p : FsPath) : Bool :=
  tree.any (fun e => e.1 == p)

/-- Reading a file: `aiofiles.open(path, "rb")` followed by reading all
contents.  `none` when the file is absent. -/
def lookupFile (tree : FileTree) (p : FsPath) : Option ByteSeq :=
  (tree.find? (fun e => e.1 == p)).map Prod.snd

/-- `aiofiles.os.remove`: delete the directory entry at `p`; raises
`FileNotFoundError` when the entry is absent. -/
def osRemove (tree : FileTree) (p : FsPath) : Except String FileTree :=
  if treeHas tree p then
    .ok (tree.filter (fun e => e.1 != p))
  else
    .error "FileNotFoundError"

/-- `util.paths_recursive(dir)`: every file strictly below `dir`, as a
path relative to `dir`, in tree order. -/
def pathsRecursive (tree : FileTree) (dir : FsPath) : List FsPath :=
  tree.filterMap (fun e =>
    if dir.isPrefixOf e.1 && e.1.length > dir.length then
      some (e.1.drop dir.length)
    else
      none)

/-- `pathlib.Path.name`: the final path component (empty for the empty
path). -/
def pathName (p : FsPath) : String := p.getLastD ""

/-- Python `s.startswith(pre)`, as character-list prefix. -/
def strStartsWith (pre s : String) : Bool := pre.toList.isPrefixOf s.toList

/-- Python `s.endswith(suf)`, as character-list suffix. -/
def strEndsWith (suf s : String) : Bool := suf.toList.isSuffixOf s.toList

/-- Python `not s` for a string: empty is falsy. -/
def strIsEmpty (s : String) : Bool := s.toList.isEmpty

/-- Python `s.removesuffix(suf)` after the suffix has been checked:
drop the last `n` characters. -/
def strDropRight (s : String) (n : Nat) : String :=
  String.mk (s.toList.take (s.toList.length - n))

/-- The inner loop of `delete_file` (`draft.py` lines 164-169): walk the
snapshot of `paths_recursive(target.parent)`; every yielded path `p`
whose final component starts with the target's name plus a dot is
removed at `interim_path / p` — note the code joins `p` back onto the
interim root, not onto the parent it was enumerated from. -/
def removeMatches (name : String) : FileTree → List FsPath → Except String FileTree
  | tree, [] => .ok tree
  | tree, p :: ps =>
    if strStartsWith (name ++ ".") (pathName p) then
      match osRemove tree p with
      | .error e => .error e
      | .ok t => removeMatches name t ps
    else
      removeMatches name tree ps

/-- `delete_file` body inside the revision scope (`draft.py` lines
153-172), parametric in `analysis.is_artifact` (that module is not part
of the sampled sources).  Returns the mutated interim tree, or the
raised error. -/
def deleteFile (isArtifact : FsPath → Bool) (tree : FileTree) (relPath : FsPath) :
    Except String FileTree :=
  if treeHas tree relPath = false then
    .error "File to delete was not found in the new revision"
  else
    match (if isArtifact relPath then
             removeMatches (pathName relPath) tree (pathsRecursive tree relPath.dropLast)
           else .ok tree) with
    | .error e => .error e
    | .ok t => osRemove t relPath

/-- The two hash types accepted by `hashgen` (`draft.py` line 226). -/
inductive HashType
  | sha256
  | sha512
deriving DecidableEq, Repr

/-- The form value / file extension of a hash type. -/
def HashType.ext : HashType → String
  | .sha256 => "sha256"
  | .sha512 => "sha512"

/-- Fuel-indexed chunk splitting; `fuel ≥ l.length` makes it total. -/
def chunksOfAux (n : Nat) : Nat → ByteSeq → List ByteSeq
  | 0, _ => []
  | fuel + 1, l =>
    if l = [] ∨ n = 0 then
      []
    else
      l.take n :: chunksOfAux n fuel (l.drop n)

/-- Splitting a byte sequence into chunks of at most `n` bytes: the
`while chunk := await f.read(8192)` loop of `hashgen` yields exactly
these chunks in order. -/
def chunksOf (n : Nat) (l : ByteSeq) : List ByteSeq :=
  chunksOfAux n l.length l

/-- The sidecar contents written by `hashgen` (`draft.py` line 259):
`f"{hash_value}  {rel_path.name}\n"` as bytes, given the hex digest as
bytes. -/
def sidecarBytes (digest : ByteSeq) (fname : String) : ByteSeq :=
  digest ++ [32, 32] ++ (fname.toList.map Char.toNat) ++ [10]

/-- `hashgen` body inside the revision scope (`draft.py` lines 237-259),
parametric in the digest function (`hashlib.sha256`/`sha512`): the
incremental hash object is modelled by the byte sequence fed to it, and
`hashFn ht` maps that sequence to the hex digest bytes. -/
def hashgen (hashFn : HashType → ByteSeq → ByteSeq) (tree : FileTree)
    (relPath : FsPath) (ht : HashType) : Except String FileTree :=
  if treeHas tree relPath = false then
    .error "Source file not found in the new revision."
  else if treeHas tree (relPath.dropLast ++ [pathName relPath ++ "." ++ ht.ext]) then
    .error (ht.ext ++ " file already exists")
  else
    match lookupFile tree relPath with
    | none => .error "FileNotFoundError"
    | some content =>
      .ok (tree ++ [(relPath.dropLast ++ [pathName relPath ++ "." ++ ht.ext],
        sidecarBytes
          (hashFn ht ((chunksOf 8192 content).foldl (fun acc c => acc ++ c) []))
          (pathName relPath))])

/-- The status of a background `Task` row (`sql.TaskStatus`). -/
inductive TaskStatus
  | queued
  | active
  | completed
  | failed
deriving DecidableEq, Repr

/-- The state of one release as the revision scope sees it: the pointer
to the latest revision, the committed `Revision` rows (number paired
with the sealed tree), and the on-disk materialisation of the latest
revision. -/
structure ReleaseState where
  latestRevisionNumber : Option Nat
  revisionLog : List (Nat × FileTree)
  tree : FileTree
deriving DecidableEq, Repr

/-- Modelled from the spec: `atr.revision.create_and_manage` (the file
`atr/revision.py` is not among the sampled sources).  On entry the
interim directory is populated by hard-linking every file of the latest
revision; the caller's mutation runs on it; on clean exit a new
`Revision` row with the next number is committed and the interim tree
atomically becomes the latest; on exceptional exit the interim directory
and any uncommitted row are discarded and the prior revision stays
latest. -/
def createAndManage (st : ReleaseState) (mutate : FileTree → Except String FileTree) :
    ReleaseState × Except String Unit :=
  let interim := st.tree
  match mutate interim with
  | .error e => (st, .error e)
  | .ok t' =>
    let n := match st.latestRevisionNumber with
      | none => 0
      | some m => m + 1
    ({ latestRevisionNumber := some n
       revisionLog := st.revisionLog ++ [(n, t')]
       tree := t' }, .ok ())

/-- The in-scope body of `sbomgen` (`draft.py` lines 293-305): check the
source artifact exists, check the `.cdx.json` sidecar does not, mutate
nothing. -/
def sbomgenScope (tree : FileTree) (relPath : FsPath) : Except String FileTree :=
  if treeHas tree relPath = false then
    .error "Source artifact file not found in the new revision."
  else if treeHas tree (relPath.dropLast ++ [pathName relPath ++ ".cdx.json"]) then
    .error "SBOM file already exists"
  else
    .ok tree

/-- The four operations of `draft.py` that run inside a revision-mutation
scope. -/
inductive DraftOp
  | deleteFileOp (isArtifact : FsPath → Bool) (relPath : FsPath)
  | hashgenOp (hashFn : HashType → ByteSeq → ByteSeq) (relPath : FsPath) (ht : HashType)
  | sbomgenOp (relPath : FsPath)
  | freshOp

/-- Run one draft operation through the revision scope: the mutation body
is the corresponding route's in-scope code. -/
def runDraftOp (st : ReleaseState) : DraftOp → ReleaseState × Except String Unit
  | .deleteFileOp ia p => createAndManage st (fun t => deleteFile ia t p)
  | .hashgenOp f p ht => createAndManage st (fun t => hashgen f t p ht)
  | .sbomgenOp p => createAndManage st (fun t => sbomgenScope t p)
  | .freshOp => createAndManage st (fun t => .ok t)

/-- Observable events of the `sbomgen` route, in program order. -/
inductive SbomEvent
  | scopeEnter
  | checkSourceExists
  | checkSidecarAbsent
  | commitRevision (n : Nat)
  | enqueueTask (n : Nat)
  | pollObserve (attempt : Nat) (s : TaskStatus)
  | sleepMs (ms : Nat)
deriving DecidableEq, BEq, Repr

/-- The position of the first occurrence of an event in a trace. -/
def eventIdx (evs : List SbomEvent) (e : SbomEvent) : Option Nat :=
  evs.findIdx? (fun x => x == e)

/-- Whether an event is a poll observation. -/
def isPollObserve : SbomEvent → Bool
  | .pollObserve _ _ => true
  | _ => false

/-- The poll loop of `sbomgen` (`draft.py` lines 331-336): up to `fuel`
attempts starting at attempt index `k`; each attempt refreshes the task
row (observing `status k`), breaks as soon as the status is not QUEUED,
and otherwise sleeps 100 ms.  Returns the events and the last observed
status (QUEUED when every attempt saw QUEUED). -/
def pollAux (status : Nat → TaskStatus) : Nat → Nat → List SbomEvent × TaskStatus
  | _, 0 => ([], .queued)
  | k, fuel + 1 =>
    if status k ≠ .queued then
      ([.pollObserve k (status k)], status k)
    else
      (.pollObserve k (status k) :: .sleepMs 100 :: (pollAux status (k + 1) fuel).1,
        (pollAux status (k + 1) fuel).2)

/-- The whole `sbomgen` route (`draft.py` lines 274-348): the `.tar.gz`
pre-check, the revision scope (checks only), then — after the scope has
exited — the task enqueue bound to the new revision's number and the
bounded poll.  `status k` is the task status the `k`-th refresh would
observe.  Returns the final release state, the event trace, and the
route outcome. -/
def sbomgen (status : Nat → TaskStatus) (st : ReleaseState) (relPath : FsPath) :
    ReleaseState × List SbomEvent × Except String Unit :=
  if ¬(strEndsWith ".tar.gz" (pathName relPath) || strEndsWith ".tgz" (pathName relPath)) then
    (st, [], .error "SBOM generation is only supported for .tar.gz files")
  else
    match createAndManage st (fun t => sbomgenScope t relPath) with
    | (st', .error e) => (st', [.scopeEnter], .error e)
    | (st', .ok ()) =>
      (st',
       [.scopeEnter, .checkSourceExists, .checkSidecarAbsent,
        .commitRevision (st'.latestRevisionNumber.getD 0),
        .enqueueTask (st'.latestRevisionNumber.getD 0)] ++ (pollAux status 0 60).1,
       .ok ())

/-- A `Task` row, restricted to the columns `tasks_ongoing` queries. -/
structure TaskRow where
  projectName : String
  versionName : String
  revisionNumber : Option String
  status : TaskStatus
deriving DecidableEq, Repr

/-- A `Revision` row, restricted to the columns the latest-revision
subquery of `tasks_ongoing_revision` uses. -/
structure RevisionRow where
  releaseName : String
  number : String
  seq : Nat
deriving DecidableEq, Repr

/-- The slice of the database that `tasks_ongoing` and
`tasks_ongoing_revision` read. -/
structure TaskDb where
  tasks : List TaskRow
  revisions : List RevisionRow
deriving Repr

/-- Modelled from the spec: `sql.release_name(project, version)` (module
`atr/models/sql.py` is not among the sampled sources) — a Release is
identified by the (project_name, version_name) pair, keyed as a single
composite name. -/
def releaseNameOf (projectName versionName : String) : String :=
  projectName ++ "-" ++ versionName

/-- The latest-revision scalar subquery of `tasks_ongoing_revision`
(`interaction.py` lines 167-176): the `number` of the `Revision` row for
this release with the greatest `seq`. -/
def latestRevisionSub (db : TaskDb) (projectName versionName : String) : Option String :=
  ((db.revisions.filter
      (fun r => r.releaseName == releaseNameOf projectName versionName)).argmax
    (fun r => r.seq)).map (fun r => r.number)

/-- SQL `=` on a nullable column: NULL compares equal to nothing. -/
def sqlEq (a b : Option String) : Bool :=
  match a, b with
  | some x, some y => x == y
  | _, _ => false

/-- The WHERE clause of `tasks_ongoing` (`interaction.py` lines 150-156)
applied to one task row, given the resolved target revision number. -/
def taskMatches (projectName versionName : String) (target : Option String)
    (t : TaskRow) : Bool :=
  t.projectName == projectName && t.versionName == versionName &&
    sqlEq t.revisionNumber target &&
    (t.status == .queued || t.status == .active)

/-- `tasks_ongoing` (`interaction.py` lines 147-158): count of Task rows
for the project/version in {QUEUED, ACTIVE} whose revision number equals
the given one, or — when none is given — the release's current latest
revision number (`sql.RELEASE_LATEST_REVISION_NUMBER`, modelled by the
explicit subquery that `tasks_ongoing_revision` spells out). -/
def tasksOngoing (db : TaskDb) (projectName versionName : String)
    (revisionNumber : Option String) : Nat :=
  let target : Option String :=
    match revisionNumber with
    | some r => some r
    | none => latestRevisionSub db projectName versionName
  (db.tasks.filter (taskMatches projectName versionName target)).length

/-- `tasks_ongoing_revision` (`interaction.py` lines 161-196): the same
count computed against the inline scalar subquery, returned together
with the latest revision number. -/
def tasksOngoingRevision (db : TaskDb) (projectName versionName : String)
    (revisionNumber : Option String) : Nat × Option String :=
  let latest := latestRevisionSub db projectName versionName
  let target : Option String :=
    match revisionNumber with
    | some r => some r
    | none => latest
  ((db.tasks.filter (taskMatches projectName versionName target)).length, latest)

/-- A `Release` row, restricted to what `release_delete` touches. -/
structure ReleaseRow where
  name : String
  phase : String
  projectName : String
  version : String
deriving DecidableEq, Repr

/-- A `CheckResult` row, restricted to what `release_delete` and
`path_info` touch. -/
structure CheckRow where
  releaseName : String
  revisionNumber : String
  memberRelPath : Option String
  primaryRelPath : Option String
  status : String
deriving DecidableEq, Repr

/-- The combined state `release_delete` operates on: the relational rows
plus the release's on-disk directory and the flash messages surfaced to
the user. -/
structure DelState where
  releases : List ReleaseRow
  tasks : List TaskRow
  checks : List CheckRow
  fsDirExists : Bool
  fsRemoveFails : Bool
  downloadsPurged : Bool
  flashes : List String
deriving Repr

/-- `_delete_release_data_filesystem` (`interaction.py` lines 272-288):
recursively remove the release directory; an I/O failure is caught,
logged, and surfaced as a flash warning — never re-raised. -/
def deleteReleaseDataFilesystem (st : DelState) (releaseName : String) : DelState :=
  if st.fsDirExists then
    if st.fsRemoveFails then
      { st with
        flashes := st.flashes ++
          ["Database records for '" ++ releaseName ++
           "' deleted, but failed to delete filesystem directory"] }
    else
      { st with fsDirExists := false }
  else
    st

/-- `release_delete` (`interaction.py` lines 109-144): resolve the
release (NotFound if absent or the phase filter does not match), delete
its Task and CheckResult rows and the Release row, commit, then purge
download hard links and the on-disk tree.  The filesystem step never
raises. -/
def releaseDelete (st : DelState) (releaseName : String) (phase : Option String)
    (includeDownloads : Bool) : DelState × Except String Unit :=
  let found := st.releases.find? (fun r =>
    r.name == releaseName &&
      (match phase with
       | none => true
       | some ph => r.phase == ph))
  match found with
  | none => (st, .error ("Release '" ++ releaseName ++ "' not found."))
  | some rel =>
    let st1 : DelState :=
      { st with
        tasks := st.tasks.filter (fun t =>
          !(t.projectName == rel.projectName && t.versionName == rel.version))
        checks := st.checks.filter (fun c => !(c.releaseName == releaseName))
        releases := st.releases.filter (fun r => !(r.name == releaseName)) }
    let st2 := if includeDownloads then { st1 with downloadsPurged := true } else st1
    (deleteReleaseDataFilesystem st2 releaseName, .ok ())

/-- The greedy pairing loop of `admin_consistency` (`admin.py` lines
193-200): for each database path in order, scan the remaining filesystem
paths for an exact string match and remove both on a match.  Returns
(database-only, filesystem-only, paired). -/
def greedyPair : List String → List String → List String × List String × List String
  | [], fs => ([], fs, [])
  | d :: ds, fs =>
    if d ∈ fs then
      let r := greedyPair ds (fs.erase d)
      (r.1, r.2.1, d :: r.2.2)
    else
      let r := greedyPair ds fs
      (d :: r.1, r.2.1, r.2.2)

/-- `admin_consistency` (`admin.py` lines 176-221): fatal error when two
database releases resolve to the same directory (`len(set(...)) !=
len(...)`), otherwise the greedy pairing report. -/
def adminConsistency (databaseDirs filesystemDirs : List String) :
    Except String (List String × List String × List String) :=
  if databaseDirs.dedup.length ≠ databaseDirs.length then
    .error "Duplicate release directories in database"
  else
    .ok (greedyPair databaseDirs filesystemDirs)

/-- Python truthiness of an optional string: `None` and `""` are falsy. -/
def pyTruthy : Option String → Bool
  | none => false
  | some s => !(strIsEmpty s)

/-- Python `s.split("/")`, as character-list splitting. -/
def splitSlash (s : String) : List String :=
  (s.toList.splitOn '/').map String.mk

/-- `member.name.split("/")[-1]`: the final slash-separated component. -/
def lastComponent (name : String) : String :=
  (splitSlash name).getLastD ""

/-- `member.name.split("/", 1)[0]`: the first slash-separated component. -/
def firstComponent (name : String) : String :=
  (splitSlash name).headD ""

/-- The skip condition of the member loop (`targz.py` line 57):
`member.name and member.name.split("/")[-1].startswith("._")`. -/
def skippedMember (name : String) : Bool :=
  !(strIsEmpty name) && strStartsWith "._" (lastComponent name)

/-- One iteration of the member loop in `root_directory` (`targz.py`
lines 56-66): skip members whose final component starts with `._`
(metadata convention); otherwise adopt the first component when no
(truthy) root is set yet, and raise when it differs from the root. -/
def rootStep (root : Option String) (name : String) : Except String (Option String) :=
  if skippedMember name then
    .ok root
  else
    let first := firstComponent name
    if pyTruthy root = false then
      .ok (some first)
    else if first ≠ root.getD "" then
      .error ("Multiple root directories found: " ++ root.getD "" ++ ", " ++ first)
    else
      .ok root

/-- The member loop of `root_directory`, threading the `root` variable
through `rootStep` and propagating the raised error. -/
def rootLoop : Option String → List String → Except String (Option String)
  | root, [] => .ok root
  | root, m :: ms =>
    match rootStep root m with
    | .error e => .error e
    | .ok r => rootLoop r ms

/-- `root_directory` (`targz.py` lines 51-71) over the archive's member
names in order. -/
def rootDirectory (members : List String) : Except String String :=
  match rootLoop none members with
  | .error e => .error e
  | .ok r =>
    if pyTruthy r then
      .ok (r.getD "")
    else
      .error "No root directory found in archive"

/-- The outcome a check records (`CheckResult` status). -/
inductive CheckOutcome
  | success
  | warning
  | failure
deriving DecidableEq, Repr

/-- The expected root name of `structure` (`targz.py` lines 83-85):
`filename.removesuffix(".tar.gz")` when the name ends in `.tar.gz`,
otherwise `filename.removesuffix(".tgz")`. -/
def expectedRoot (filename : String) : String :=
  if strEndsWith ".tar.gz" filename then
    strDropRight filename 7
  else if strEndsWith ".tgz" filename then
    strDropRight filename 4
  else
    filename

/-- `structure` (`targz.py` lines 74-106): reading the archive is
modelled as `Except` (an unreadable archive is a generic exception,
recorded as FAILURE); a `RootDirectoryError` from `root_directory` is
recorded as WARNING; a root differing from the expected name is WARNING;
a matching root is SUCCESS. -/
def structureCheck (archive : Except String (List String)) (filename : String) :
    CheckOutcome :=
  match archive with
  | .error _ => .failure
  | .ok members =>
    match rootDirectory members with
    | .error _ => .warning
    | .ok root => if root = expectedRoot filename then .success else .warning

/-- The two named groups of `analysis.extension_pattern()` as one match
result (`re.search` returning `None` when there is no match). -/
structure SearchGroups where
  artifact : Option String
  metadata : Option String
deriving Repr

/-- The aggregate `path_info` builds (`interaction.py` lines 54-59). -/
structure PathInfoM where
  artifacts : List String
  metadata : List String
  successes : List (String × List CheckRow)
  warnings : List (String × List CheckRow)
  errors : List (String × List CheckRow)
deriving Repr

/-- `dict.setdefault(key, []).append(row)` on an association list. -/
def appendAt (m : List (String × List CheckRow)) (key : String) (row : CheckRow) :
    List (String × List CheckRow) :=
  if m.any (fun e => e.1 == key) then
    m.map (fun e => if e.1 == key then (e.1, e.2 ++ [row]) else e)
  else
    m ++ [(key, [row])]

/-- The grouping loop of `_successes_errors_warnings` (`interaction.py`
lines 291-323) for one status: keep rows of this release and revision
with `member_rel_path IS NULL` and the given status, and group them by
truthy `primary_rel_path`. -/
def groupByPrimary (rows : List CheckRow) (releaseName revisionNumber status : String) :
    List (String × List CheckRow) :=
  (rows.filter (fun c =>
      c.releaseName == releaseName && c.revisionNumber == revisionNumber &&
        c.memberRelPath == none && c.status == status)).foldl
    (fun m c =>
      match c.primaryRelPath with
      | none => m
      | some p => if strIsEmpty p then m else appendAt m p c)
    []

/-- A Python `set.add` on a list kept without duplicates. -/
def setAdd (s : List String) (x : String) : List String :=
  if x ∈ s then s else s ++ [x]

/-- The classification loop of `path_info` (`interaction.py` lines
98-105): a path whose match has a truthy `artifact` group goes to the
artifacts set, **elif** a truthy `metadata` group to the metadata set. -/
def classifyPaths (searchFn : String → Option SearchGroups) (paths : List String) :
    List String × List String :=
  paths.foldl
    (fun acc path =>
      match searchFn path with
      | none => acc
      | some g =>
        if pyTruthy g.artifact then
          (setAdd acc.1 path, acc.2)
        else if pyTruthy g.metadata then
          (acc.1, setAdd acc.2 path)
        else
          acc)
    ([], [])

/-- `path_info` (`interaction.py` lines 91-106), parametric in the
compiled `analysis.extension_pattern()` search (that module is not among
the sampled sources): `None` exactly when the release has no latest
revision, otherwise the classified paths plus the aggregated check
results for the latest revision. -/
def pathInfo (searchFn : String → Option SearchGroups)
    (releaseName : String) (latestRevisionNumber : Option String)
    (checkRows : List CheckRow) (paths : List String) : Option PathInfoM :=
  match latestRevisionNumber with
  | none => none
  | some rev =>
    let c := classifyPaths searchFn paths
    some
      { artifacts := c.1
        metadata := c.2
        successes := groupByPrimary checkRows releaseName rev "success"
        warnings := groupByPrimary checkRows releaseName rev "warning"
        errors := groupByPrimary checkRows releaseName rev "failure" }

/-- The claim's reading of `tasks_ongoing`, stated from the spec's
words for the refinement comparison: the count of Task rows whose
project and version match, whose status is QUEUED or ACTIVE, and whose
revision number equals the target exactly. -/
def tasksOngoingSpecCount (db : TaskDb) (projectName versionName target : String) : Nat :=
  (db.tasks.filter (fun t =>
    t.projectName == projectName && t.versionName == versionName &&
    t.revisionNumber == some target &&
    (t.status == .queued || t.status == .active))).length

/-- A concrete stand-in for the compiled `analysis.extension_pattern()`
search, used by witnesses: `.tar.gz` names match as artifacts,
`.sha512` names as metadata, everything else does not match. -/
def sampleSearch (s : String) : Option SearchGroups :=
  if ".tar.gz".toList.isSuffixOf s.toList then some ⟨some ".tar.gz", none⟩
  else if ".sha512".toList.isSuffixOf s.toList then some ⟨none, some ".sha512"⟩
  else none

/-! ### Helper lemmas -/

theorem createAndManage_error (st : ReleaseState) (f : FileTree → Except String FileTree)
    (e : String) (h : (createAndManage st f).2 = Except.error e) :
    (createAndManage st f).1 = st := by
  unfold createAndManage at h ⊢
  cases hm : f st.tree <;> simp [hm] at h ⊢

theorem sqlEq_some (a : Option String) (r : String) : sqlEq a (some r) = (a == some r) := by
  cases a <;> rfl

theorem chunksOfAux_flatten (n : Nat) (hn : 0 < n) :
    ∀ (fuel : Nat) (l : ByteSeq), l.length ≤ fuel → (chunksOfAux n fuel l).flatten = l := by
  intro fuel
  induction fuel with
  | zero =>
    intro l hl
    have hnil : l = [] := by cases l <;> simp_all
    simp [hnil, chunksOfAux]
  | succ k ih =>
    intro l hl
    rw [chunksOfAux]
    split
    · rename_i h
      rcases h with h | h
      · simp [h]
      · omega
    · rename_i h
      simp only [not_or] at h
      simp only [List.flatten_cons]
      rw [ih (l.drop n) ?_]
      · exact List.take_append_drop n l
      · have hpos : 0 < l.length := List.length_pos.mpr h.1
        have hn2 : n ≠ 0 := h.2
        simp only [List.length_drop]
        omega

theorem chunksOf_flatten (n : Nat) (hn : 0 < n) (l : ByteSeq) : (chunksOf n l).flatten = l :=
  chunksOfAux_flatten n hn l.length l le_rfl

theorem chunksOfAux_length_le (n : Nat) :
    ∀ (fuel : Nat) (l : ByteSeq), ∀ c ∈ chunksOfAux n fuel l, c.length ≤ n := by
  intro fuel
  induction fuel with
  | zero =>
    intro l c hc
    simp [chunksOfAux] at hc
  | succ k ih =>
    intro l c hc
    rw [chunksOfAux] at hc
    split at hc
    · simp at hc
    · rcases List.mem_cons.mp hc with hc | hc
      · subst hc
        simp [List.length_take]
      · exact ih (l.drop n) c hc

theorem chunksOf_length_le (n : Nat) (l : ByteSeq) :
    ∀ c ∈ chunksOf n l, c.length ≤ n :=
  chunksOfAux_length_le n l.length l

theorem foldl_append_eq_join (L : List ByteSeq) :
    ∀ acc : ByteSeq, L.foldl (fun a c => a ++ c) acc = acc ++ L.flatten := by
  induction L with
  | nil => intro acc; simp
  | cons x xs ih =>
    intro acc
    simp only [List.foldl_cons, List.flatten_cons, ih (acc ++ x), List.append_assoc]

theorem lookupFile_treeHas (tree : FileTree) (p : FsPath) (c : ByteSeq)
    (h : lookupFile tree p = some c) : treeHas tree p = true := by
  unfold lookupFile at h
  cases hf : tree.find? (fun e => e.1 == p) with
  | none => rw [hf] at h; simp at h
  | some e =>
    have hpred := List.find?_some hf
    have hmem := List.mem_of_find?_eq_some hf
    unfold treeHas
    rw [List.any_eq_true]
    exact ⟨e, hmem, hpred⟩

/-! ### Claim theorems -/

/-- C2: `tasks_ongoing` counts exactly the Task rows of the given
project and version in {QUEUED, ACTIVE} whose revision number equals
the given one, or — when no revision number is given — the release's
current latest revision number; `tasks_ongoing_revision` computes the
same count. -/
theorem tasks_ongoing_count (db : TaskDb) (p v r l : String)
    (hl : latestRevisionSub db p v = some l) :
    tasksOngoing db p v (some r) = tasksOngoingSpecCount db p v r ∧
    tasksOngoing db p v none = tasksOngoingSpecCount db p v l ∧
    tasksOngoingRevision db p v none = (tasksOngoingSpecCount db p v l, some l) := by
  have key : ∀ target : String,
      (db.tasks.filter (taskMatches p v (some target))).length =
        tasksOngoingSpecCount db p v target := by
    intro target
    unfold tasksOngoingSpecCount
    congr 1
    apply List.filter_congr
    intro t _
    unfold taskMatches
    rw [sqlEq_some]
  refine ⟨key r, ?_, ?_⟩
  · unfold tasksOngoing
    simp only [hl]
    exact key l
  · unfold tasksOngoingRevision
    simp only [hl]
    exact Prod.ext (key l) rfl

/-- Witness for C2 on a two-task database whose latest revision is
"00002". -/
theorem tasks_ongoing_count_witness :
    tasksOngoing
      ⟨[⟨"p", "v", some "00001", .queued⟩, ⟨"p", "v", some "00002", .active⟩,
        ⟨"p", "v", some "00002", .completed⟩],
       [⟨"p-v", "00001", 1⟩, ⟨"p-v", "00002", 2⟩]⟩ "p" "v" (some "00001") = 1 ∧
    tasksOngoing
      ⟨[⟨"p", "v", some "00001", .queued⟩, ⟨"p", "v", some "00002", .active⟩,
        ⟨"p", "v", some "00002", .completed⟩],
       [⟨"p-v", "00001", 1⟩, ⟨"p-v", "00002", 2⟩]⟩ "p" "v" none = 1 := by
  have h := tasks_ongoing_count
    ⟨[⟨"p", "v", some "00001", .queued⟩, ⟨"p", "v", some "00002", .active⟩,
      ⟨"p", "v", some "00002", .completed⟩],
     [⟨"p-v", "00001", 1⟩, ⟨"p-v", "00002", 2⟩]⟩ "p" "v" "00001" "00002" (by rfl)
  exact ⟨by rw [h.1]; rfl, by rw [h.2.1]; rfl⟩

/-- C1: any exception inside a revision-mutation scope (delete_file,
hashgen, sbomgen, fresh) leaves the release exactly as before: same
latest revision pointer, no new Revision row, and the on-disk tree
untouched; the caller receives the error. -/
theorem draft_scope_rollback (st : ReleaseState) (op : DraftOp) (e : String)
    (h : (runDraftOp st op).2 = Except.error e) :
    (runDraftOp st op).1 = st ∧
    (runDraftOp st op).1.latestRevisionNumber = st.latestRevisionNumber ∧
    (runDraftOp st op).1.revisionLog = st.revisionLog ∧
    (runDraftOp st op).1.tree = st.tree := by
  have key : (runDraftOp st op).1 = st := by
    cases op <;> exact createAndManage_error _ _ _ h
  exact ⟨key, by rw [key], by rw [key], by rw [key]⟩

/-- Witness for C1: deleting a file absent from the interim tree raises,
and the release state is exactly the prior one. -/
theorem draft_scope_rollback_witness :
    (runDraftOp ⟨some 0, [(0, [])], []⟩ (.deleteFileOp (fun _ => true) ["x"])).2 =
      Except.error "File to delete was not found in the new revision" ∧
    (runDraftOp ⟨some 0, [(0, [])], []⟩ (.deleteFileOp (fun _ => true) ["x"])).1 =
      ⟨some 0, [(0, [])], []⟩ :=
  ⟨rfl, (draft_scope_rollback ⟨some 0, [(0, [])], []⟩ (.deleteFileOp (fun _ => true) ["x"])
      "File to delete was not found in the new revision" (by rfl)).1⟩

/-- C6: when the recursive removal of the release directory fails after
the database rows were deleted and committed, release_delete still
returns success: the database deletion stands (release, task and
check-result rows gone), and the filesystem failure is surfaced as a
distinct warning message rather than an exception. -/
theorem release_delete_degraded (st : DelState) (releaseName : String)
    (phase : Option String) (inc : Bool) (rel : ReleaseRow)
    (hfind : st.releases.find? (fun r => r.name == releaseName &&
        (match phase with | none => true | some ph => r.phase == ph)) = some rel)
    (hdir : st.fsDirExists = true) (hfail : st.fsRemoveFails = true) :
    (releaseDelete st releaseName phase inc).2 = .ok () ∧
    (releaseDelete st releaseName phase inc).1.releases =
      st.releases.filter (fun r => !(r.name == releaseName)) ∧
    (releaseDelete st releaseName phase inc).1.tasks =
      st.tasks.filter (fun t =>
        !(t.projectName == rel.projectName && t.versionName == rel.version)) ∧
    (releaseDelete st releaseName phase inc).1.checks =
      st.checks.filter (fun c => !(c.releaseName == releaseName)) ∧
    (releaseDelete st releaseName phase inc).1.flashes =
      st.flashes ++ ["Database records for '" ++ releaseName ++
        "' deleted, but failed to delete filesystem directory"] := by
  unfold releaseDelete
  rw [hfind]
  cases inc <;> simp [deleteReleaseDataFilesystem, hdir, hfail]

/-- Witness for C6: a one-release state with a failing filesystem
removal yields a degraded success with the warning flash. -/
theorem release_delete_degraded_witness :
    (releaseDelete
        ⟨[⟨"apache-foo-1.0", "draft", "foo", "1.0"⟩], [], [], true, true, false, []⟩
        "apache-foo-1.0" none true).2 = .ok () ∧
    (releaseDelete
        ⟨[⟨"apache-foo-1.0", "draft", "foo", "1.0"⟩], [], [], true, true, false, []⟩
        "apache-foo-1.0" none true).1.releases = [] ∧
    (releaseDelete
        ⟨[⟨"apache-foo-1.0", "draft", "foo", "1.0"⟩], [], [], true, true, false, []⟩
        "apache-foo-1.0" none true).1.flashes =
      ["Database records for 'apache-foo-1.0' deleted, but failed to delete filesystem directory"] := by
  have h := release_delete_degraded
    ⟨[⟨"apache-foo-1.0", "draft", "foo", "1.0"⟩], [], [], true, true, false, []⟩
    "apache-foo-1.0" none true ⟨"apache-foo-1.0", "draft", "foo", "1.0"⟩ rfl rfl rfl
  exact ⟨h.1, by rw [h.2.1]; rfl, by rw [h.2.2.2.2]; rfl⟩

/-- C8: for an existing source and either hash type, hash generation
reads the source in 8192-byte chunks whose concatenation is the whole
content, computes the selected digest of that content, and writes a
sidecar whose bytes are the hex digest, two spaces, the source's
filename only, and a trailing newline. -/
theorem hashgen_chunked_format (hashFn : HashType → ByteSeq → ByteSeq) (tree : FileTree)
    (relPath : FsPath) (ht : HashType) (content : ByteSeq)
    (hsrc : lookupFile tree relPath = some content)
    (hsc : treeHas tree (relPath.dropLast ++ [pathName relPath ++ "." ++ ht.ext]) = false) :
    hashgen hashFn tree relPath ht =
      .ok (tree ++ [(relPath.dropLast ++ [pathName relPath ++ "." ++ ht.ext],
        hashFn ht content ++ [32, 32] ++ ((pathName relPath).toList.map Char.toNat) ++ [10])]) ∧
    (∀ c ∈ chunksOf 8192 content, c.length ≤ 8192) ∧
    (chunksOf 8192 content).foldl (fun acc c => acc ++ c) [] = content := by
  have hfed : (chunksOf 8192 content).foldl (fun acc c => acc ++ c) [] = content := by
    rw [foldl_append_eq_join]
    rw [List.nil_append]
    exact chunksOf_flatten 8192 (by omega) content
  have hhas : treeHas tree relPath = true := lookupFile_treeHas tree relPath content hsrc
  refine ⟨?_, fun c hc => chunksOf_length_le 8192 content c hc, hfed⟩
  unfold hashgen
  simp only [hhas, hsc, hsrc, hfed, Bool.true_eq_false, if_false, sidecarBytes]
  rfl

/-- Witness for C8 on a one-file tree. -/
theorem hashgen_chunked_format_witness :
    hashgen (fun _ bs => [bs.length]) [(["f.bin"], [7, 8, 9])] ["f.bin"] .sha256 =
      .ok [(["f.bin"], [7, 8, 9]),
           (["f.bin.sha256"], [3] ++ [32, 32] ++ ("f.bin".toList.map Char.toNat) ++ [10])] := by
  have h := hashgen_chunked_format (fun _ bs => [bs.length]) [(["f.bin"], [7, 8, 9])]
    ["f.bin"] .sha256 [7, 8, 9] (by rfl) (by rfl)
  rw [h.1]
  rfl

theorem treeHas_append (t1 t2 : FileTree) (p : FsPath) :
    treeHas (t1 ++ t2) p = (treeHas t1 p || treeHas t2 p) := by
  unfold treeHas
  exact List.any_append

theorem lookupFile_append_of_absent (tree : FileTree) (p : FsPath) (d : ByteSeq)
    (h : treeHas tree p = false) :
    lookupFile (tree ++ [(p, d)]) p = some d := by
  induction tree with
  | nil => simp [lookupFile, List.find?]
  | cons e es ih =>
    unfold treeHas at h
    simp only [List.any_cons, Bool.or_eq_false_iff] at h
    unfold lookupFile at ih ⊢
    rw [List.cons_append, List.find?_cons_of_neg _ (by simp [h.1])]
    exact ih (by unfold treeHas; simp [h.2])

theorem mem_setAdd (s : List String) (x p : String) :
    p ∈ setAdd s x ↔ p ∈ s ∨ p = x := by
  unfold setAdd
  split
  · rename_i hx
    constructor
    · exact fun h => Or.inl h
    · rintro (h | rfl)
      · exact h
      · exact hx
  · simp [List.mem_append]

theorem classifyPaths_invariant (searchFn : String → Option SearchGroups) :
    ∀ (paths : List String) (acc : List String × List String),
      (∀ p ∈ acc.1, ∃ g, searchFn p = some g ∧ pyTruthy g.artifact = true) →
      (∀ p ∈ acc.2, ∃ g, searchFn p = some g ∧ pyTruthy g.artifact = false ∧
        pyTruthy g.metadata = true) →
      (∀ p ∈ (paths.foldl
          (fun acc path =>
            match searchFn path with
            | none => acc
            | some g =>
              if pyTruthy g.artifact then (setAdd acc.1 path, acc.2)
              else if pyTruthy g.metadata then (acc.1, setAdd acc.2 path)
              else acc)
          acc).1, ∃ g, searchFn p = some g ∧ pyTruthy g.artifact = true) ∧
      (∀ p ∈ (paths.foldl
          (fun acc path =>
            match searchFn path with
            | none => acc
            | some g =>
              if pyTruthy g.artifact then (setAdd acc.1 path, acc.2)
              else if pyTruthy g.metadata then (acc.1, setAdd acc.2 path)
              else acc)
          acc).2, ∃ g, searchFn p = some g ∧ pyTruthy g.artifact = false ∧
        pyTruthy g.metadata = true) := by
  intro paths
  induction paths with
  | nil => intro acc h1 h2; exact ⟨h1, h2⟩
  | cons q qs ih =>
    intro acc h1 h2
    simp only [List.foldl_cons]
    cases hq : searchFn q with
    | none => exact ih acc h1 h2
    | some g =>
      by_cases hart : pyTruthy g.artifact = true
      · simp only [hq, hart, if_true]
        refine ih _ ?_ h2
        intro p hp
        rcases (mem_setAdd acc.1 q p).mp hp with hp | rfl
        · exact h1 p hp
        · exact ⟨g, hq, hart⟩
      · have hart' : pyTruthy g.artifact = false := by
          simpa using hart
        by_cases hmet : pyTruthy g.metadata = true
        · simp only [hq, hart', hmet, Bool.false_eq_true, if_false, if_true]
          refine ih _ h1 ?_
          intro p hp
          rcases (mem_setAdd acc.2 q p).mp hp with hp | rfl
          · exact h2 p hp
          · exact ⟨g, hq, hart', hmet⟩
        · have hmet' : pyTruthy g.metadata = false := by simpa using hmet
          simp only [hq, hart', hmet', Bool.false_eq_true, if_false]
          exact ih acc h1 h2

/-- C10: `path_info` returns None exactly when the release has no latest
revision; otherwise every input path lands in at most one of the
artifacts and metadata sets — a path matching the artifact group is
never also added to metadata. -/
theorem path_info_classification (searchFn : String → Option SearchGroups)
    (releaseName : String) (latest : Option String) (rows : List CheckRow)
    (paths : List String) :
    (pathInfo searchFn releaseName latest rows paths = none ↔ latest = none) ∧
    (∀ info, pathInfo searchFn releaseName latest rows paths = some info →
      ∀ p, p ∈ info.artifacts → p ∉ info.metadata) := by
  cases latest with
  | none => exact ⟨by simp [pathInfo], by simp [pathInfo]⟩
  | some rev =>
    constructor
    · simp [pathInfo]
    · intro info hinfo p hart hmet
      have hinv := classifyPaths_invariant searchFn paths ([], [])
        (by intro p hp; simp at hp) (by intro p hp; simp at hp)
      simp only [pathInfo, Option.some.injEq] at hinfo
      have hart' : p ∈ (classifyPaths searchFn paths).1 := by
        rw [← hinfo] at hart
        exact hart
      have hmet' : p ∈ (classifyPaths searchFn paths).2 := by
        rw [← hinfo] at hmet
        exact hmet
      obtain ⟨g1, hg1, ht1⟩ := hinv.1 p hart'
      obtain ⟨g2, hg2, ht2, _⟩ := hinv.2 p hmet'
      rw [hg1] at hg2
      cases hg2
      rw [ht1] at ht2
      exact absurd ht2 (by simp)

/-- Witness for C10: a release without a latest revision yields None; a
tarball classified as artifact is not in the metadata set. -/
theorem path_info_classification_witness :
    pathInfo sampleSearch "r" none [] ["a.tar.gz"] = none ∧
    "a.tar.gz" ∉ (PathInfoM.mk ["a.tar.gz"] ["b.sha512"] [] [] []).metadata := by
  constructor
  · exact (path_info_classification sampleSearch "r" none [] ["a.tar.gz"]).1.mpr rfl
  · exact (path_info_classification sampleSearch "r" (some "00001") []
      ["a.tar.gz", "b.sha512"]).2 (PathInfoM.mk ["a.tar.gz"] ["b.sha512"] [] [] [])
      (by rfl) "a.tar.gz" (by simp)

/-- C7: hash generation is idempotence-guarded: if the sidecar already
exists the operation fails with a conflict before writing anything, so a
second hashgen call for the same file and type fails and — through the
revision scope — leaves the sidecar written by the first call
unchanged. -/
theorem hashgen_idempotence (hashFn : HashType → ByteSeq → ByteSeq) (tree tree' : FileTree)
    (relPath : FsPath) (ht : HashType)
    (h : hashgen hashFn tree relPath ht = .ok tree') :
    hashgen hashFn tree' relPath ht = .error (ht.ext ++ " file already exists") ∧
    (∃ d, lookupFile tree' (relPath.dropLast ++ [pathName relPath ++ "." ++ ht.ext]) = some d ∧
      tree' = tree ++ [(relPath.dropLast ++ [pathName relPath ++ "." ++ ht.ext], d)]) ∧
    (∀ st' : ReleaseState, st'.tree = tree' →
      runDraftOp st' (.hashgenOp hashFn relPath ht) =
        (st', .error (ht.ext ++ " file already exists"))) := by
  unfold hashgen at h
  split at h
  · simp at h
  · rename_i hex
    split at h
    · simp at h
    · rename_i hsc
      split at h
      · simp at h
      · rename_i content hlk
        simp only [Except.ok.injEq] at h
        have hsc' : treeHas tree (relPath.dropLast ++ [pathName relPath ++ "." ++ ht.ext]) = false := by
          simp only [Bool.not_eq_true] at hsc
          exact hsc
        have htree' : treeHas tree' (relPath.dropLast ++ [pathName relPath ++ "." ++ ht.ext]) = true := by
          rw [← h, treeHas_append]
          simp [treeHas]
        have hsrc' : treeHas tree' relPath = true := by
          have hex' : treeHas tree relPath = true := by
            simp only [Bool.not_eq_false] at hex
            exact hex
          rw [← h, treeHas_append, hex', Bool.true_or]
        have hsecond : hashgen hashFn tree' relPath ht =
            .error (ht.ext ++ " file already exists") := by
          unfold hashgen
          simp [hsrc', htree']
        refine ⟨hsecond, ⟨_, ?_, h.symm⟩, fun st' hst' => ?_⟩
        · rw [← h]
          exact lookupFile_append_of_absent tree _ _ hsc'
        · have hb : hashgen hashFn st'.tree relPath ht =
              .error (ht.ext ++ " file already exists") := by
            rw [hst']; exact hsecond
          simp [runDraftOp, createAndManage, hb]

/-- Witness for C7: the second hashgen on the same file and type fails
with the conflict message. -/
theorem hashgen_idempotence_witness :
    hashgen (fun _ bs => [bs.length])
      [(["f.bin"], [7, 8, 9]), (["f.bin.sha256"], [3, 32, 32, 102, 46, 98, 105, 110, 10])]
      ["f.bin"] .sha256 = .error "sha256 file already exists" := by
  have h := hashgen_idempotence (fun _ bs => [bs.length])
    [(["f.bin"], [7, 8, 9])]
    [(["f.bin"], [7, 8, 9]), (["f.bin.sha256"], [3, 32, 32, 102, 46, 98, 105, 110, 10])]
    ["f.bin"] .sha256 (by rfl)
  exact h.1

theorem structureCheck_ok (ms : List String) (filename : String) :
    structureCheck (.ok ms) filename =
      (match rootDirectory ms with
       | .error _ => CheckOutcome.warning
       | .ok root =>
         if root = expectedRoot filename then CheckOutcome.success else CheckOutcome.warning) := rfl

theorem rootLoop_stays (c : String) (hc : strIsEmpty c = false) :
    ∀ (ms : List String),
      (∀ n ∈ ms, skippedMember n = false → firstComponent n = c) →
      rootLoop (some c) ms = .ok (some c) := by
  intro ms
  induction ms with
  | nil => intro _; rfl
  | cons m ms ih =>
    intro h
    unfold rootLoop rootStep
    by_cases hsk : skippedMember m = true
    · rw [if_pos hsk]
      exact ih (fun n hn => h n (List.mem_cons_of_mem m hn))
    · have hsk' : skippedMember m = false := by simpa using hsk
      rw [if_neg (by simp [hsk'])]
      have hfc : firstComponent m = c := h m (List.mem_cons_self m ms) hsk'
      have hp : pyTruthy (some c) = true := by simp [pyTruthy, hc]
      rw [if_neg (by simp [hp])]
      rw [if_neg (by simp [hfc, Option.getD])]
      exact ih (fun n hn => h n (List.mem_cons_of_mem m hn))

theorem rootLoop_adopts (c : String) (hc : strIsEmpty c = false) :
    ∀ (ms : List String) (root : Option String),
      pyTruthy root = false →
      (∀ n ∈ ms, skippedMember n = false → firstComponent n = c) →
      ms.any (fun n => !skippedMember n) = true →
      rootLoop root ms = .ok (some c) := by
  intro ms
  induction ms with
  | nil => intro root _ _ hany; simp at hany
  | cons m ms ih =>
    intro root hroot h hany
    unfold rootLoop rootStep
    by_cases hsk : skippedMember m = true
    · rw [if_pos hsk]
      have hany' : ms.any (fun n => !skippedMember n) = true := by
        simp only [List.any_cons, hsk, Bool.not_true, Bool.false_or] at hany
        exact hany
      exact ih root hroot (fun n hn => h n (List.mem_cons_of_mem m hn)) hany'
    · have hsk' : skippedMember m = false := by simpa using hsk
      rw [if_neg (by simp [hsk'])]
      rw [if_pos (by simp [hroot])]
      have hfc : firstComponent m = c := h m (List.mem_cons_self m ms) hsk'
      rw [hfc]
      exact rootLoop_stays c hc ms (fun n hn => h n (List.mem_cons_of_mem m hn))

theorem rootLoop_diverges (c : String) (hc : strIsEmpty c = false) :
    ∀ (ms : List String),
      (∃ n ∈ ms, skippedMember n = false ∧ firstComponent n ≠ c) →
      ∃ e, rootLoop (some c) ms = .error e := by
  intro ms
  induction ms with
  | nil => rintro ⟨n, hn, _⟩; simp at hn
  | cons m ms ih =>
    rintro ⟨n, hn, hnsk, hnfc⟩
    unfold rootLoop rootStep
    by_cases hsk : skippedMember m = true
    · rw [if_pos hsk]
      have hn' : n ∈ ms := by
        rcases List.mem_cons.mp hn with rfl | hn'
        · rw [hsk] at hnsk; exact absurd hnsk (by simp)
        · exact hn'
      exact ih ⟨n, hn', hnsk, hnfc⟩
    · have hsk' : skippedMember m = false := by simpa using hsk
      rw [if_neg (by simp [hsk'])]
      have hp : pyTruthy (some c) = true := by simp [pyTruthy, hc]
      rw [if_neg (by simp [hp])]
      by_cases hfc : firstComponent m = c
      · rw [if_neg (by simp [hfc, Option.getD])]
        have hn' : n ∈ ms := by
          rcases List.mem_cons.mp hn with rfl | hn'
          · exact absurd hfc hnfc
          · exact hn'
        exact ih ⟨n, hn', hnsk, hnfc⟩
      · rw [if_pos (by simpa [Option.getD] using hfc)]
        exact ⟨_, rfl⟩

theorem rootLoop_ordered_distinct (m₁ m₂ : String)
    (hs₁ : skippedMember m₁ = false) (hs₂ : skippedMember m₂ = false)
    (hf₁ : strIsEmpty (firstComponent m₁) = false)
    (hdiff : firstComponent m₂ ≠ firstComponent m₁) :
    ∀ (ms : List String), [m₁, m₂].Sublist ms →
      ∀ root : Option String, ∃ e, rootLoop root ms = .error e := by
  intro ms
  induction ms with
  | nil => intro hsub; exact absurd hsub (by simp)
  | cons x ms' ih =>
    intro hsub root
    cases hsub with
    | cons _ htail =>
      unfold rootLoop
      cases hstep : rootStep root x with
      | error e => exact ⟨e, rfl⟩
      | ok r' =>
        obtain ⟨e, he⟩ := ih htail r'
        exact ⟨e, he⟩
    | cons₂ _ htail =>
      have hm₂ : m₂ ∈ ms' := htail.subset (List.mem_cons_self _ _)
      unfold rootLoop
      by_cases hr : pyTruthy root = true
      · cases root with
        | none => simp [pyTruthy] at hr
        | some c =>
          have hc : strIsEmpty c = false := by simpa [pyTruthy] using hr
          by_cases hfc : firstComponent m₁ = c
          · have hstep : rootStep (some c) m₁ = .ok (some c) := by
              unfold rootStep
              rw [if_neg (by simp [hs₁])]
              rw [if_neg (by simp [pyTruthy, hc])]
              rw [if_neg (by simp [hfc])]
            rw [hstep]
            exact rootLoop_diverges c hc ms' ⟨m₂, hm₂, hs₂, hfc ▸ hdiff⟩
          · have hstep : rootStep (some c) m₁ =
                .error ("Multiple root directories found: " ++
                  (some c).getD "" ++ ", " ++ firstComponent m₁) := by
              unfold rootStep
              rw [if_neg (by simp [hs₁])]
              rw [if_neg (by simp [pyTruthy, hc])]
              rw [if_pos (by simp [hfc])]
            rw [hstep]
            exact ⟨_, rfl⟩
      · have hstep : rootStep root m₁ = .ok (some (firstComponent m₁)) := by
          unfold rootStep
          rw [if_neg (by simp [hs₁])]
          rw [if_pos (by simpa using hr)]
        rw [hstep]
        exact rootLoop_diverges (firstComponent m₁) hf₁ ms' ⟨m₂, hm₂, hs₂, hdiff⟩

theorem rootLoop_no_root :
    ∀ (ms : List String) (root : Option String), pyTruthy root = false →
      (∀ n ∈ ms, skippedMember n = false → firstComponent n = "") →
      ∃ r', rootLoop root ms = .ok r' ∧ pyTruthy r' = false := by
  intro ms
  induction ms with
  | nil => intro root hroot _; exact ⟨root, rfl, hroot⟩
  | cons x ms' ih =>
    intro root hroot hall
    unfold rootLoop
    by_cases hsk : skippedMember x = true
    · have hstep : rootStep root x = .ok root := by
        unfold rootStep
        rw [if_pos hsk]
      rw [hstep]
      exact ih root hroot (fun n hn => hall n (List.mem_cons_of_mem x hn))
    · have hsk' : skippedMember x = false := by simpa using hsk
      have hfx : firstComponent x = "" := hall x (List.mem_cons_self x ms') hsk'
      have hstep : rootStep root x = .ok (some (firstComponent x)) := by
        unfold rootStep
        rw [if_neg (by simp [hsk'])]
        rw [if_pos hroot]
      rw [hstep]
      refine ih (some (firstComponent x)) ?_ (fun n hn => hall n (List.mem_cons_of_mem x hn))
      rw [hfx]
      rfl

theorem treeHas_eq_true_iff (tree : FileTree) (p : FsPath) :
    treeHas tree p = true ↔ p ∈ tree.map Prod.fst := by
  unfold treeHas
  rw [List.any_eq_true]
  constructor
  · rintro ⟨e, he, hp⟩
    exact List.mem_map.mpr ⟨e, he, beq_iff_eq.mp hp⟩
  · intro hp
    obtain ⟨e, he, hep⟩ := List.mem_map.mp hp
    exact ⟨e, he, beq_iff_eq.mpr hep⟩

theorem removeMatches_characterisation (name : String) :
    ∀ (L : List FsPath) (tree : FileTree),
      (∀ p ∈ L, treeHas tree p = true) → L.Nodup →
      removeMatches name tree L =
        .ok (tree.filter (fun e =>
          !(strStartsWith (name ++ ".") (pathName e.1) && decide (e.1 ∈ L)))) := by
  intro L
  induction L with
  | nil =>
    intro tree _ _
    unfold removeMatches
    congr 1
    conv_lhs => rw [← List.filter_true tree]
    apply List.filter_congr
    intro e _
    simp
  | cons p ps ih =>
    intro tree hsub hnd
    have hp : treeHas tree p = true := hsub p (List.mem_cons_self p ps)
    have hpns : p ∉ ps := (List.nodup_cons.mp hnd).1
    have hnd' : ps.Nodup := (List.nodup_cons.mp hnd).2
    unfold removeMatches
    by_cases hm : strStartsWith (name ++ ".") (pathName p) = true
    · rw [if_pos hm]
      unfold osRemove
      rw [if_pos hp]
      have hsub' : ∀ q ∈ ps, treeHas (tree.filter (fun e => e.1 != p)) q = true := by
        intro q hq
        have hqp : q ≠ p := fun heq => hpns (heq ▸ hq)
        have := hsub q (List.mem_cons_of_mem p hq)
        rw [treeHas_eq_true_iff] at this ⊢
        obtain ⟨e, he, hep⟩ := List.mem_map.mp this
        refine List.mem_map.mpr ⟨e, List.mem_filter.mpr ⟨he, ?_⟩, hep⟩
        simp [hep, hqp]
      show removeMatches name (tree.filter (fun e => e.1 != p)) ps = _
      rw [ih (tree.filter (fun e => e.1 != p)) hsub' hnd']
      congr 1
      rw [List.filter_filter]
      apply List.filter_congr
      intro e _
      by_cases hep : e.1 = p
      · simp [hep, hm]
      · simp [hep, List.mem_cons]
    · rw [if_neg hm]
      rw [ih tree (fun q hq => hsub q (List.mem_cons_of_mem p hq)) hnd']
      congr 1
      apply List.filter_congr
      intro e _
      by_cases hep : e.1 = p
      · have : strStartsWith (name ++ ".") (pathName e.1) = false := by
          rw [hep]
          simpa using hm
        simp [this]
      · simp [hep, List.mem_cons]

theorem toList_append_dot (name : String) :
    (name ++ ".").toList = name.toList ++ ['.'] := by
  show (name ++ ".").data = name.data ++ ['.']
  rw [String.data_append]

theorem strStartsWith_append_dot (name : String) :
    strStartsWith (name ++ ".") name = false := by
  unfold strStartsWith
  rw [Bool.eq_false_iff]
  intro hpre
  rw [toList_append_dot] at hpre
  have hle := (List.isPrefixOf_iff_prefix.mp hpre).length_le
  rw [List.length_append] at hle
  simp only [List.length_cons, List.length_nil] at hle
  omega

theorem strStartsWith_empty_right (name : String) :
    strStartsWith (name ++ ".") "" = false := by
  unfold strStartsWith
  rw [Bool.eq_false_iff]
  intro hpre
  rw [toList_append_dot] at hpre
  have hle := (List.isPrefixOf_iff_prefix.mp hpre).length_le
  have h0 : ("" : String).toList = [] := rfl
  rw [h0] at hle
  rw [List.length_append] at hle
  simp only [List.length_cons, List.length_nil] at hle
  omega

theorem pathsRecursive_nil (tree : FileTree) :
    pathsRecursive tree [] =
      (tree.map Prod.fst).filter (fun p => decide (0 < p.length)) := by
  induction tree with
  | nil => rfl
  | cons e es ih =>
    simp only [pathsRecursive] at ih ⊢
    by_cases h : 0 < e.1.length
    · rw [List.filterMap_cons_some (show _ = some e.1 by simp [List.isPrefixOf, h]), ih]
      simp [h]
    · have he : e.1 = [] := by
        cases hx : e.1 with
        | nil => rfl
        | cons a as => rw [hx] at h; simp at h
      rw [List.filterMap_cons_none (by simp [List.isPrefixOf, he]), ih]
      simp [h]

/-- C4 counterexample: deleting the top-level artifact `foo.tar.gz` also
deletes `sub/foo.tar.gz.sha256`, a matching file in a *different*
directory, because `paths_recursive` walks the parent recursively; the
claim's "in the same directory" restriction does not hold. -/
theorem delete_file_counterexample :
    deleteFile (fun _ => true)
      [(["foo.tar.gz"], []), (["sub", "foo.tar.gz.sha256"], [])]
      ["foo.tar.gz"] = .ok [] ∧
    (["sub", "foo.tar.gz.sha256"] : FsPath).dropLast ≠ (["foo.tar.gz"] : FsPath).dropLast :=
  ⟨rfl, by decide⟩

/-- C4 (amended): a missing target fails loudly with an error and no
revision is committed; deleting an existing top-level artifact deletes,
in addition to the target, exactly those files anywhere in the interim
tree whose name starts with the target's basename followed by a dot. -/
theorem delete_file_amended (isArtifact : FsPath → Bool) (tree : FileTree) (name : String)
    (hroot : treeHas tree [name] = true)
    (hart : isArtifact [name] = true)
    (hnd : (tree.map Prod.fst).Nodup) :
    deleteFile isArtifact tree [name] =
      .ok (tree.filter (fun e =>
        !(strStartsWith (name ++ ".") (pathName e.1)) && e.1 != [name])) ∧
    (∀ q, treeHas tree q = false →
      deleteFile isArtifact tree q =
        .error "File to delete was not found in the new revision") ∧
    (∀ st : ReleaseState, st.tree = tree → ∀ q, treeHas tree q = false →
      (runDraftOp st (.deleteFileOp isArtifact q)).1 = st) := by
  have hLnd : ((tree.map Prod.fst).filter (fun p => decide (0 < p.length))).Nodup :=
    hnd.filter _
  have hLsub : ∀ p ∈ (tree.map Prod.fst).filter (fun p => decide (0 < p.length)),
      treeHas tree p = true := by
    intro p hp
    rw [treeHas_eq_true_iff]
    exact (List.mem_filter.mp hp).1
  have hrm := removeMatches_characterisation name
    ((tree.map Prod.fst).filter (fun p => decide (0 < p.length))) tree hLsub hLnd
  obtain ⟨e0, he0mem, he0path⟩ := List.mem_map.mp ((treeHas_eq_true_iff tree [name]).mp hroot)
  have he0cond : (!(strStartsWith (name ++ ".") (pathName e0.1) &&
      decide (e0.1 ∈ (tree.map Prod.fst).filter (fun p => decide (0 < p.length))))) = true := by
    rw [he0path]
    simp [pathName, strStartsWith_append_dot name]
  have ht1has : treeHas (tree.filter (fun e =>
      !(strStartsWith (name ++ ".") (pathName e.1) &&
        decide (e.1 ∈ (tree.map Prod.fst).filter (fun p => decide (0 < p.length))))))
      [name] = true := by
    rw [treeHas_eq_true_iff]
    exact List.mem_map.mpr ⟨e0, List.mem_filter.mpr ⟨he0mem, he0cond⟩, he0path⟩
  refine ⟨?_, ?_, ?_⟩
  · have hstep : deleteFile isArtifact tree [name] =
        osRemove (tree.filter (fun e =>
          !(strStartsWith (name ++ ".") (pathName e.1) &&
            decide (e.1 ∈ (tree.map Prod.fst).filter (fun p => decide (0 < p.length))))))
          [name] := by
      unfold deleteFile
      rw [if_neg (by simp [hroot])]
      rw [if_pos hart]
      have hdrop : List.dropLast [name] = ([] : FsPath) := rfl
      have hpn : pathName [name] = name := rfl
      rw [hdrop, hpn, pathsRecursive_nil, hrm]
    rw [hstep]
    unfold osRemove
    rw [if_pos ht1has, List.filter_filter]
    congr 1
    apply List.filter_congr
    intro e hemem
    by_cases hnil : e.1 = []
    · have hm : strStartsWith (name ++ ".") (pathName e.1) = false := by
        rw [hnil]
        exact strStartsWith_empty_right name
      simp [hm]
    · have hlen : 0 < e.1.length := List.length_pos.mpr hnil
      have hmemL : e.1 ∈ (tree.map Prod.fst).filter (fun p => decide (0 < p.length)) :=
        List.mem_filter.mpr ⟨List.mem_map.mpr ⟨e, hemem, rfl⟩, by simpa using hlen⟩
      simp [hmemL, Bool.and_comm]
  · intro q hq
    unfold deleteFile
    rw [if_pos hq]
  · intro st hst q hq
    have herr : deleteFile isArtifact st.tree q =
        .error "File to delete was not found in the new revision" := by
      rw [hst]
      unfold deleteFile
      rw [if_pos hq]
    simp [runDraftOp, createAndManage, herr]

/-- Witness for C4 (amended): deleting the top-level artifact also
removes its dot-prefixed sidecars and nothing else; a missing target
errors. -/
theorem delete_file_amended_witness :
    deleteFile (fun _ => true)
      [(["foo.tar.gz"], []), (["foo.tar.gz.sha256"], []), (["bar"], [])]
      ["foo.tar.gz"] = .ok [(["bar"], [])] ∧
    deleteFile (fun _ => true)
      [(["foo.tar.gz"], []), (["foo.tar.gz.sha256"], []), (["bar"], [])]
      ["zzz"] = .error "File to delete was not found in the new revision" := by
  have h := delete_file_amended (fun _ => true)
    [(["foo.tar.gz"], []), (["foo.tar.gz.sha256"], []), (["bar"], [])]
    "foo.tar.gz" (by rfl) (by rfl) (by decide)
  refine ⟨?_, h.2.1 ["zzz"] (by rfl)⟩
  rw [h.1]
  rfl

theorem dedup_length_eq_iff (l : List String) : l.dedup.length = l.length ↔ l.Nodup := by
  constructor
  · intro h
    have hsub : l.dedup.Sublist l := List.dedup_sublist l
    have heq : l.dedup = l := hsub.eq_of_length h
    rw [← heq]
    exact List.nodup_dedup l
  · intro h
    rw [List.dedup_eq_self.mpr h]

theorem greedyPair_mem (db : List String) :
    ∀ (fs : List String), db.Nodup → fs.Nodup →
      ∀ x : String,
        (x ∈ (greedyPair db fs).2.2 ↔ x ∈ db ∧ x ∈ fs) ∧
        (x ∈ (greedyPair db fs).1 ↔ x ∈ db ∧ x ∉ fs) ∧
        (x ∈ (greedyPair db fs).2.1 ↔ x ∈ fs ∧ x ∉ db) := by
  induction db with
  | nil =>
    intro fs _ _ x
    simp [greedyPair]
  | cons d ds ih =>
    intro fs hdb hfs x
    have hd : d ∉ ds := (List.nodup_cons.mp hdb).1
    have hds : ds.Nodup := (List.nodup_cons.mp hdb).2
    have hxd : x ∈ ds → x ≠ d := fun hx heq => hd (heq ▸ hx)
    by_cases hmem : d ∈ fs
    · have hgp : greedyPair (d :: ds) fs =
          ((greedyPair ds (fs.erase d)).1, (greedyPair ds (fs.erase d)).2.1,
            d :: (greedyPair ds (fs.erase d)).2.2) := by
        simp [greedyPair, hmem]
      have hkey := ih (fs.erase d) hds (hfs.erase d) x
      have hme : x ∈ fs.erase d ↔ x ≠ d ∧ x ∈ fs := hfs.mem_erase_iff
      rw [hgp]
      refine ⟨?_, ?_, ?_⟩
      · rw [List.mem_cons, hkey.1, hme]
        constructor
        · rintro (rfl | ⟨h1, _, h3⟩)
          · exact ⟨List.mem_cons_self _ _, hmem⟩
          · exact ⟨List.mem_cons_of_mem d h1, h3⟩
        · rintro ⟨h1, h2⟩
          rcases List.mem_cons.mp h1 with rfl | h1
          · exact Or.inl rfl
          · exact Or.inr ⟨h1, hxd h1, h2⟩
      · rw [hkey.2.1, hme]
        constructor
        · rintro ⟨h1, h2⟩
          exact ⟨List.mem_cons_of_mem d h1, fun hxfs => h2 ⟨hxd h1, hxfs⟩⟩
        · rintro ⟨h1, h2⟩
          rcases List.mem_cons.mp h1 with rfl | h1
          · exact absurd hmem h2
          · exact ⟨h1, fun hpair => h2 hpair.2⟩
      · rw [hkey.2.2, hme]
        constructor
        · rintro ⟨⟨hne, hxfs⟩, hnds⟩
          refine ⟨hxfs, fun hmem' => ?_⟩
          rcases List.mem_cons.mp hmem' with rfl | h1
          · exact hne rfl
          · exact hnds h1
        · rintro ⟨hxfs, hnxd⟩
          have hne : x ≠ d := fun heq => hnxd (heq ▸ List.mem_cons_self d ds)
          exact ⟨⟨hne, hxfs⟩, fun h1 => hnxd (List.mem_cons_of_mem d h1)⟩
    · have hgp : greedyPair (d :: ds) fs =
          (d :: (greedyPair ds fs).1, (greedyPair ds fs).2.1,
            (greedyPair ds fs).2.2) := by
        simp [greedyPair, hmem]
      have hkey := ih fs hds hfs x
      rw [hgp]
      refine ⟨?_, ?_, ?_⟩
      · rw [hkey.1]
        constructor
        · rintro ⟨h1, h2⟩
          exact ⟨List.mem_cons_of_mem d h1, h2⟩
        · rintro ⟨h1, h2⟩
          rcases List.mem_cons.mp h1 with rfl | h1
          · exact absurd h2 hmem
          · exact ⟨h1, h2⟩
      · rw [List.mem_cons, hkey.2.1]
        constructor
        · rintro (rfl | ⟨h1, h2⟩)
          · exact ⟨List.mem_cons_self _ _, hmem⟩
          · exact ⟨List.mem_cons_of_mem d h1, h2⟩
        · rintro ⟨h1, h2⟩
          rcases List.mem_cons.mp h1 with rfl | h1
          · exact Or.inl rfl
          · exact Or.inr ⟨h1, h2⟩
      · rw [hkey.2.2]
        constructor
        · rintro ⟨h1, h2⟩
          refine ⟨h1, fun hmem' => ?_⟩
          rcases List.mem_cons.mp hmem' with rfl | h1'
          · exact hmem h1
          · exact h2 h1'
        · rintro ⟨h1, h2⟩
          exact ⟨h1, fun h1' => h2 (List.mem_cons_of_mem d h1')⟩

/-- C5: the consistency check fails fatally, reporting nothing, exactly
when two database releases resolve to the same directory path; otherwise
the greedy pairing yields three sets characterised by exact-match
membership: paired = both sides, database-only = database minus
filesystem, filesystem-only = filesystem minus database.  The check is a
pure function of the two listings and mutates neither store. -/
theorem admin_consistency_correct (databaseDirs filesystemDirs : List String)
    (hfs : filesystemDirs.Nodup) :
    (¬ databaseDirs.Nodup →
      adminConsistency databaseDirs filesystemDirs =
        .error "Duplicate release directories in database") ∧
    (databaseDirs.Nodup →
      adminConsistency databaseDirs filesystemDirs =
        .ok (greedyPair databaseDirs filesystemDirs) ∧
      ∀ x : String,
        (x ∈ (greedyPair databaseDirs filesystemDirs).2.2 ↔
          x ∈ databaseDirs ∧ x ∈ filesystemDirs) ∧
        (x ∈ (greedyPair databaseDirs filesystemDirs).1 ↔
          x ∈ databaseDirs ∧ x ∉ filesystemDirs) ∧
        (x ∈ (greedyPair databaseDirs filesystemDirs).2.1 ↔
          x ∈ filesystemDirs ∧ x ∉ databaseDirs)) := by
  constructor
  · intro hnd
    unfold adminConsistency
    rw [if_pos]
    intro hlen
    exact hnd ((dedup_length_eq_iff databaseDirs).mp hlen)
  · intro hnd
    refine ⟨?_, fun x => greedyPair_mem databaseDirs filesystemDirs hnd hfs x⟩
    unfold adminConsistency
    rw [if_neg]
    intro hlen
    exact hlen ((dedup_length_eq_iff databaseDirs).mpr hnd)

/-- Witness for C5: a duplicate database path aborts fatally; disjoint
remainders and the exact match pair up on a small example. -/
theorem admin_consistency_correct_witness :
    adminConsistency ["r/a", "r/a"] [] = .error "Duplicate release directories in database" ∧
    adminConsistency ["r/a", "r/b"] ["r/b", "r/c"] = .ok (["r/a"], ["r/c"], ["r/b"]) ∧
    "r/b" ∈ (greedyPair ["r/a", "r/b"] ["r/b", "r/c"]).2.2 := by
  have hdup := (admin_consistency_correct ["r/a", "r/a"] [] (by decide)).1 (by decide)
  have h := (admin_consistency_correct ["r/a", "r/b"] ["r/b", "r/c"] (by decide)).2 (by decide)
  refine ⟨hdup, ?_, ((h.2 "r/b").1).mpr ⟨by decide, by decide⟩⟩
  rw [h.1]
  rfl

/-- C9 counterexample: the archive `["a/._x", "b/y"]` has two distinct
top-level entries `a` and `b`, yet `root_directory` returns `"b"`
without raising, because members whose final component starts with `._`
are skipped before the root comparison. -/
theorem root_directory_counterexample :
    rootDirectory ["a/._x", "b/y"] = .ok "b" ∧
    firstComponent "a/._x" = "a" ∧
    firstComponent "b/y" = "b" ∧
    ("a" : String) ≠ "b" :=
  ⟨rfl, rfl, rfl, by decide⟩

/-- C9 (amended): members whose final path component starts with `._`
are skipped.  Among the remaining members: if at least one remains and
all agree on one non-empty first path component, root_directory returns
it; if a remaining member with a non-empty first component is followed,
in archive order, by a remaining member with a different first
component, root_directory raises a RootDirectoryError; if every
remaining member has an empty first component — in particular when no
member remains — root_directory raises the no-root RootDirectoryError.
The structure check records FAILURE for an unreadable archive, WARNING
when root_directory raises, SUCCESS when the root equals the
filename-derived expectation and WARNING otherwise. -/
theorem root_directory_amended (members : List String) (c : String) (filename : String)
    (hc : strIsEmpty c = false) :
    (members.any (fun n => !skippedMember n) = true →
     (∀ n ∈ members, skippedMember n = false → firstComponent n = c) →
     rootDirectory members = .ok c) ∧
    (∀ m₁ m₂ : String, [m₁, m₂].Sublist members →
     skippedMember m₁ = false → skippedMember m₂ = false →
     strIsEmpty (firstComponent m₁) = false →
     firstComponent m₂ ≠ firstComponent m₁ →
     ∃ e, rootDirectory members = .error e) ∧
    ((∀ n ∈ members, skippedMember n = false → firstComponent n = "") →
     rootDirectory members = .error "No root directory found in archive") ∧
    (∀ e, structureCheck (.error e) filename = .failure) ∧
    (∀ ms, (∃ e, rootDirectory ms = .error e) → structureCheck (.ok ms) filename = .warning) ∧
    (∀ ms r, rootDirectory ms = .ok r →
      structureCheck (.ok ms) filename =
        (if r = expectedRoot filename then .success else .warning)) := by
  refine ⟨?_, ?_, ?_, fun e => rfl, ?_, ?_⟩
  · intro hany hall
    have hloop := rootLoop_adopts c hc members none rfl hall hany
    unfold rootDirectory
    rw [hloop]
    simp [pyTruthy, hc]
  · intro m₁ m₂ hsub hs₁ hs₂ hf₁ hdiff
    obtain ⟨e, he⟩ := rootLoop_ordered_distinct m₁ m₂ hs₁ hs₂ hf₁ hdiff members hsub none
    refine ⟨e, ?_⟩
    unfold rootDirectory
    rw [he]
  · intro hall
    obtain ⟨r', hr', hfalsy⟩ := rootLoop_no_root members none rfl hall
    unfold rootDirectory
    rw [hr']
    show (if pyTruthy r' = true then Except.ok (r'.getD "")
          else Except.error "No root directory found in archive") =
        Except.error "No root directory found in archive"
    rw [if_neg (by simp [hfalsy])]
  · rintro ms ⟨e, he⟩
    rw [structureCheck_ok, he]
  · intro ms r hr
    rw [structureCheck_ok, hr]

/-- Witness for C9 (amended): the spec's round-trip example succeeds;
two ordered distinct roots raise, also when the later first component is
empty; an archive whose only member is skipped raises the no-root
error. -/
theorem root_directory_amended_witness :
    rootDirectory ["myproj-1.0/", "myproj-1.0/src/main.c"] = .ok "myproj-1.0" ∧
    structureCheck (.ok ["myproj-1.0/", "myproj-1.0/src/main.c"]) "myproj-1.0.tar.gz" =
      .success ∧
    (∃ e, rootDirectory ["a/x", "b/y"] = .error e) ∧
    (∃ e, rootDirectory ["a/x", ""] = .error e) ∧
    rootDirectory ["._junk"] = .error "No root directory found in archive" ∧
    structureCheck (.error "unreadable") "myproj-1.0.tar.gz" = .failure := by
  have h := root_directory_amended ["myproj-1.0/", "myproj-1.0/src/main.c"] "myproj-1.0"
    "myproj-1.0.tar.gz" (by decide)
  have h2 := root_directory_amended ["a/x", "b/y"] "a" "myproj-1.0.tar.gz" (by decide)
  have h3 := root_directory_amended ["a/x", ""] "a" "myproj-1.0.tar.gz" (by decide)
  have h4 := root_directory_amended ["._junk"] "a" "myproj-1.0.tar.gz" (by decide)
  have hok : rootDirectory ["myproj-1.0/", "myproj-1.0/src/main.c"] = .ok "myproj-1.0" :=
    h.1 (by decide) (by decide)
  have herr : ∃ e, rootDirectory ["a/x", "b/y"] = .error e :=
    h2.2.1 "a/x" "b/y" (List.Sublist.refl _) (by decide) (by decide) (by decide) (by decide)
  have herr2 : ∃ e, rootDirectory ["a/x", ""] = .error e :=
    h3.2.1 "a/x" "" (List.Sublist.refl _) (by decide) (by decide) (by decide) (by decide)
  have hnr : rootDirectory ["._junk"] = .error "No root directory found in archive" :=
    h4.2.2.1 (by decide)
  refine ⟨hok, ?_, herr, herr2, hnr, h.2.2.2.1 "unreadable"⟩
  have hs := h.2.2.2.2.2 ["myproj-1.0/", "myproj-1.0/src/main.c"] "myproj-1.0" hok
  rw [hs]
  rw [if_pos (by decide)]

theorem pollAux_exhaust (status : Nat → TaskStatus) :
    ∀ (fuel k : Nat), (∀ j, j < fuel → status (k + j) = .queued) →
      (pollAux status k fuel).2 = .queued ∧ (pollAux status k fuel).1.length = 2 * fuel := by
  intro fuel
  induction fuel with
  | zero => intro k _; exact ⟨rfl, rfl⟩
  | succ f ih =>
    intro k hall
    have h0 : status k = .queued := by simpa using hall 0 (by omega)
    unfold pollAux
    rw [if_neg (by simp [h0])]
    have hrec := ih (k + 1) (fun j hj => by
      rw [show k + 1 + j = k + (j + 1) by omega]
      exact hall (j + 1) (by omega))
    refine ⟨hrec.1, ?_⟩
    simp only [List.length_cons, hrec.2]
    omega

theorem pollAux_first_stop (status : Nat → TaskStatus) :
    ∀ (i fuel k : Nat), i < fuel → status (k + i) ≠ .queued →
      (∀ j, j < i → status (k + j) = .queued) →
      (pollAux status k fuel).2 = status (k + i) ∧
      (pollAux status k fuel).1.length = 2 * i + 1 := by
  intro i
  induction i with
  | zero =>
    intro fuel k hlt hne _
    cases fuel with
    | zero => omega
    | succ f =>
      have hne' : status k ≠ .queued := by simpa using hne
      unfold pollAux
      rw [if_pos hne']
      rw [Nat.add_zero]
      exact ⟨rfl, rfl⟩
  | succ i ih =>
    intro fuel k hlt hne hall
    cases fuel with
    | zero => omega
    | succ f =>
      have h0 : status k = .queued := by simpa using hall 0 (by omega)
      unfold pollAux
      rw [if_neg (by simp [h0])]
      have hrec := ih f (k + 1) (by omega)
        (by rw [show k + 1 + i = k + (i + 1) by omega]; exact hne)
        (fun j hj => by
          rw [show k + 1 + j = k + (j + 1) by omega]
          exact hall (j + 1) (by omega))
      constructor
      · rw [show k + (i + 1) = k + 1 + i by omega]
        exact hrec.1
      · simp only [List.length_cons, hrec.2]
        omega

theorem pollAux_sleep_100 (status : Nat → TaskStatus) :
    ∀ (fuel k ms : Nat), SbomEvent.sleepMs ms ∈ (pollAux status k fuel).1 → ms = 100 := by
  intro fuel
  induction fuel with
  | zero => intro k ms h; simp [pollAux] at h
  | succ f ih =>
    intro k ms h
    unfold pollAux at h
    by_cases hq : status k ≠ .queued
    · rw [if_pos hq] at h
      simp at h
    · rw [if_neg hq] at h
      simp only [List.mem_cons] at h
      rcases h with h | h | h
      · exact absurd h (by simp)
      · simpa using h
      · exact ih (k + 1) ms h

/-- C3 counterexample: with a worker that completes immediately, the
sbomgen trace commits the revision (leaving the revision-mutation
scope) strictly before the task is enqueued and before any poll
observation, contradicting the claim that the enqueue and bounded poll
happen before leaving the scope. -/
theorem sbomgen_counterexample :
    (sbomgen (fun _ => .completed)
        ⟨some 0, [(0, [(["foo.tar.gz"], [])])], [(["foo.tar.gz"], [])]⟩
        ["foo.tar.gz"]).2.1 =
      [.scopeEnter, .checkSourceExists, .checkSidecarAbsent,
       .commitRevision 1, .enqueueTask 1, .pollObserve 0 .completed] ∧
    eventIdx
      [.scopeEnter, .checkSourceExists, .checkSidecarAbsent,
       .commitRevision 1, .enqueueTask 1, .pollObserve 0 .completed]
      (.commitRevision 1) = some 3 ∧
    eventIdx
      [.scopeEnter, .checkSourceExists, .checkSidecarAbsent,
       .commitRevision 1, .enqueueTask 1, .pollObserve 0 .completed]
      (.enqueueTask 1) = some 4 ∧
    (([.scopeEnter, .checkSourceExists, .checkSidecarAbsent,
       .commitRevision 1, .enqueueTask 1, .pollObserve 0 .completed].take 4).all
      (fun e => !(isPollObserve e))) = true :=
  ⟨rfl, rfl, rfl, rfl⟩

/-- C3 (amended): after the existence checks pass, the revision scope is
exited (committing the new revision) and only then is the Task enqueued
and bounded-polled at fixed 100 ms intervals for at most 60 attempts;
the poll stops at the first observation whose status is not QUEUED, and
exhausting all 60 attempts with the task still QUEUED is surfaced as
still-pending (the route succeeds), not as an error. -/
theorem sbomgen_amended (status : Nat → TaskStatus) (st st' : ReleaseState)
    (relPath : FsPath) (evs : List SbomEvent)
    (h : sbomgen status st relPath = (st', evs, .ok ())) :
    (∃ n, evs = [.scopeEnter, .checkSourceExists, .checkSidecarAbsent,
        .commitRevision n, .enqueueTask n] ++ (pollAux status 0 60).1) ∧
    (∀ ms, SbomEvent.sleepMs ms ∈ evs → ms = 100) ∧
    (∀ i, i < 60 → status i ≠ .queued → (∀ j, j < i → status j = .queued) →
      (pollAux status 0 60).2 = status i ∧ (pollAux status 0 60).1.length = 2 * i + 1) ∧
    ((∀ j, j < 60 → status j = .queued) → (pollAux status 0 60).2 = .queued) := by
  have hevs : ∃ n, evs = [.scopeEnter, .checkSourceExists, .checkSidecarAbsent,
      .commitRevision n, .enqueueTask n] ++ (pollAux status 0 60).1 := by
    unfold sbomgen at h
    split at h
    · simp at h
    · split at h
      · simp at h
      · rename_i st'' heq
        simp only [Prod.mk.injEq] at h
        exact ⟨st''.latestRevisionNumber.getD 0, h.2.1.symm⟩
  refine ⟨hevs, ?_, ?_, ?_⟩
  · obtain ⟨n, hn⟩ := hevs
    intro ms hm
    rw [hn] at hm
    simp only [List.mem_append, List.mem_cons] at hm
    rcases hm with (hm | hm | hm | hm | hm | hm) | hm
    · exact absurd hm (by simp)
    · exact absurd hm (by simp)
    · exact absurd hm (by simp)
    · exact absurd hm (by simp)
    · exact absurd hm (by simp)
    · exact absurd hm (by simp)
    · exact pollAux_sleep_100 status 60 0 ms hm
  · intro i hi hne hall
    have := pollAux_first_stop status i 60 0 hi (by simpa using hne)
      (fun j hj => by simpa using hall j hj)
    simpa using this
  · intro hall
    exact (pollAux_exhaust status 60 0 (fun j hj => by simpa using hall j hj)).1

/-- Witness for C3 (amended): an immediately-completed task stops the
poll at the first observation; the trace decomposes as commit, enqueue,
then the poll events. -/
theorem sbomgen_amended_witness :
    (∃ n, (sbomgen (fun _ => .completed)
        ⟨some 0, [(0, [(["foo.tar.gz"], [])])], [(["foo.tar.gz"], [])]⟩
        ["foo.tar.gz"]).2.1 =
      [.scopeEnter, .checkSourceExists, .checkSidecarAbsent,
       .commitRevision n, .enqueueTask n] ++
        (pollAux (fun _ => .completed) 0 60).1) ∧
    (pollAux (fun _ => .completed) 0 60).2 = .completed ∧
    (pollAux (fun _ => .completed) 0 60).1.length = 1 := by
  have h := sbomgen_amended (fun _ => .completed)
    ⟨some 0, [(0, [(["foo.tar.gz"], [])])], [(["foo.tar.gz"], [])]⟩
    ⟨some 1, [(0, [(["foo.tar.gz"], [])]), (1, [(["foo.tar.gz"], [])])],
      [(["foo.tar.gz"], [])]⟩
    ["foo.tar.gz"]
    [.scopeEnter, .checkSourceExists, .checkSidecarAbsent,
     .commitRevision 1, .enqueueTask 1, .pollObserve 0 .completed]
    (by rfl)
  have hstop := h.2.2.1 0 (by omega) (by simp) (fun j hj => absurd hj (by omega))
  have hevs' : ∃ n, (sbomgen (fun _ => .completed)
      ⟨some 0, [(0, [(["foo.tar.gz"], [])])], [(["foo.tar.gz"], [])]⟩
      ["foo.tar.gz"]).2.1 =
      [.scopeEnter, .checkSourceExists, .checkSidecarAbsent,
       .commitRevision n, .enqueueTask n] ++ (pollAux (fun _ => .completed) 0 60).1 := by
    obtain ⟨n, hn⟩ := h.1
    exact ⟨n, by rw [show (sbomgen (fun _ => .completed)
      ⟨some 0, [(0, [(["foo.tar.gz"], [])])], [(["foo.tar.gz"], [])]⟩
      ["foo.tar.gz"]).2.1 =
        [.scopeEnter, .checkSourceExists, .checkSidecarAbsent,
         .commitRevision 1, .enqueueTask 1, .pollObserve 0 .completed] from rfl]; exact hn⟩
  exact ⟨hevs', hstop.1, hstop.2⟩

end ATR
